import Mathlib

/-!
Shallow embedding of the semantic-property-search backend (Express route
handler for POST /property/search, the geocoding service, and the storage
lookups), together with theorems settling the specification claims.

Strings are modelled as `List Char`; JavaScript numbers are modelled as
exact rationals (`ℚ`).  Fallible external calls (embedding provider,
vector-search provider) are passed in as `Except` values; the handler
additionally returns a trace of the effects it performed, so that
"no provider call was attempted" is expressible.
-/

/-- The source strings are JS strings; we work with explicit char lists. -/
abbrev Str := List Char

/-- JS `\s` whitespace class, restricted to the ASCII whitespace characters
that can occur in the queries and listing fields. -/
def isSpaceChar (c : Char) : Bool :=
  c = ' ' || c = '\t' || c = '\n' || c = '\r' || c = '\x0b' || c = '\x0c'

/-- JS `\d`. -/
def isDigitChar (c : Char) : Bool :=
  '0' ≤ c && c ≤ '9'

/-- ASCII lower-casing of a character, as `String.prototype.toLowerCase`
acts on the ASCII range used by this repository. -/
def toLowerChar (c : Char) : Char :=
  if 'A' ≤ c && c ≤ 'Z' then Char.ofNat (c.toNat + 32) else c

/-- `s.toLowerCase()`. -/
def lowerStr (s : Str) : Str := s.map toLowerChar

/-- Is `pat` a prefix of `s` (exact character equality)? -/
def isPre : Str → Str → Bool
  | [], _ => true
  | _ :: _, [] => false
  | a :: as, b :: bs => a = b && isPre as bs

/-- Case-insensitive prefix test: `pat` (compared lower-cased) against the
lower-casing of `s`. -/
def ciPre (pat s : Str) : Bool := isPre (lowerStr pat) (lowerStr s)

/-- `s.includes(sub)` — substring containment, exact characters. -/
def containsSub (s sub : Str) : Bool :=
  match s with
  | [] => sub.isEmpty
  | _ :: rest => sub.isPrefixOf s || containsSub rest sub

/-- Case-insensitive containment: `s.toLowerCase().includes(sub)` where the
caller passes `sub` already lower-cased. -/
def containsCi (s sub : Str) : Bool := containsSub (lowerStr s) sub

/-- Length of the longest prefix of `s` whose characters satisfy `p`
(the amount consumed by a greedy character-class quantifier). -/
def countWhile (p : Char → Bool) (s : Str) : Nat :=
  (s.takeWhile p).length

/-- `String.prototype.trim`. -/
def trimStr (s : Str) : Str :=
  ((s.dropWhile isSpaceChar).reverse.dropWhile isSpaceChar).reverse

/-- `s.split(/\s+/)` — JS semantics: maximal whitespace runs separate the
pieces; a leading or trailing run contributes an empty piece. -/
def splitWs : Str → List Str
  | [] => [[]]
  | c :: cs =>
    if isSpaceChar c then
      [] :: splitWs (cs.dropWhile isSpaceChar)
    else
      match splitWs cs with
      | [] => [[c]]
      | p :: ps => (c :: p) :: ps
termination_by s => s.length
decreasing_by
  all_goals simp_wf
  all_goals exact Nat.lt_succ_of_le ((List.dropWhile_suffix _).sublist.length_le)

/-- `parseInt` on a digit string. -/
def parseDigits (s : Str) : Nat :=
  s.foldl (fun n c => 10 * n + (c.toNat - '0'.toNat)) 0

/-- `parseFloat` on a string of the shape `digits[.digits]`, modelled as an
exact rational. -/
def parseDec (s : Str) : ℚ :=
  let intPart := s.takeWhile isDigitChar
  let rest := s.drop intPart.length
  let frac : Str := match rest with
    | '.' :: fs => fs.takeWhile isDigitChar
    | _ => []
  (parseDigits intPart : ℚ) + (parseDigits frac : ℚ) / (10 : ℚ) ^ frac.length

/-- `priceStr.replace(/,/g, '')`. -/
def stripCommas (s : Str) : Str := s.filter (fun c => c ≠ ',')

/-- Coordinates record of the geocoding service. -/
structure Coordinates where
  lat : ℚ
  lng : ℚ
deriving DecidableEq, Repr

/-- `calculateProximityBoost` from the geocoding service: tiered score
boost by distance in kilometres. -/
def calculateProximityBoost (distance : ℚ) : ℚ :=
  if distance < 1 then 0.4
  else if distance < 5 then 0.3
  else if distance < 20 then 0.2
  else if distance < 50 then 0.1
  else 0

/-- Shorthand to write char-list literals. -/
def str (s : String) : Str := s.data

/-- JS `[A-Za-z\s]` character class from the location regex. -/
def isAlphaSpaceChar (c : Char) : Bool :=
  ('A' ≤ c && c ≤ 'Z') || ('a' ≤ c && c ≤ 'z') || isSpaceChar c

/-- The static name→coordinate table of the geocoding service, in source
(insertion) order. -/
def locationCoordinates : List (Str × Coordinates) :=
  [ (str "London", ⟨51.5074, -0.1278⟩)
  , (str "Manchester", ⟨53.4808, -2.2426⟩)
  , (str "Birmingham", ⟨52.4862, -1.8904⟩)
  , (str "Liverpool", ⟨53.4084, -2.9916⟩)
  , (str "Edinburgh", ⟨55.9533, -3.1883⟩)
  , (str "Glasgow", ⟨55.8642, -4.2518⟩)
  , (str "Leeds", ⟨53.8008, -1.5491⟩)
  , (str "Sheffield", ⟨53.3811, -1.4701⟩)
  , (str "Bristol", ⟨51.4545, -2.5879⟩)
  , (str "Newcastle", ⟨54.9783, -1.6178⟩)
  , (str "Nottingham", ⟨52.9548, -1.1581⟩)
  , (str "Cambridge", ⟨52.2053, 0.1218⟩)
  , (str "Oxford", ⟨51.7520, -1.2577⟩)
  , (str "Brighton", ⟨50.8229, -0.1363⟩)
  , (str "York", ⟨53.9600, -1.0873⟩)
  , (str "Bath", ⟨51.3751, -2.3617⟩)
  , (str "Cardiff", ⟨51.4816, -3.1791⟩)
  , (str "Belfast", ⟨54.5973, -5.9301⟩)
  , (str "Leicester", ⟨52.6369, -1.1398⟩)
  , (str "Coventry", ⟨52.4068, -1.5197⟩)
  , (str "City Centre", ⟨51.5074, -0.1278⟩)
  , (str "Suburb", ⟨51.5249, -0.2332⟩)
  , (str "Countryside", ⟨51.7608, -1.2550⟩)
  , (str "Coastal", ⟨50.8229, -0.1363⟩)
  , (str "Downtown", ⟨51.5113, -0.1162⟩)
  ]

/-- `getCoordinates`: exact key lookup, then a partial-containment scan in
table order, defaulting to the London entry. -/
def getCoordinates (location : Str) : Coordinates :=
  match locationCoordinates.find? (fun e => e.1 = location) with
  | some e => e.2
  | none =>
    match locationCoordinates.find?
        (fun e => containsSub location e.1 || containsSub e.1 location) with
    | some e => e.2
    | none => ⟨51.5074, -0.1278⟩

/-- Keyword alternatives of the location regex, in alternation order. -/
def locationKws : List Str :=
  [str "near", str "close to", str "in", str "by", str "around", str "next to"]

/-- Place-name alternatives of the location regex, in alternation order. -/
def placeNames : List Str :=
  [ str "City Centre", str "Suburb", str "Countryside", str "Coastal"
  , str "Downtown", str "London", str "Manchester", str "Birmingham"
  , str "Liverpool", str "Edinburgh", str "Glasgow", str "Leeds"
  , str "Sheffield", str "Bristol", str "Newcastle", str "Nottingham"
  , str "Cambridge", str "Oxford", str "Brighton", str "York", str "Bath"
  , str "Cardiff", str "Belfast", str "Leicester", str "Coventry" ]

/-- Match the trailing place-name alternation at the start of `s`
(case-insensitively); returns the number of text characters it consumes. -/
def placeAltLen (s : Str) : Option Nat :=
  (placeNames.find? (fun p => ciPre p s)).map List.length

/-- Backtracking over the greedy `[A-Za-z\s]+` of the location regex:
try consuming `k` characters of `run` (from `k` downward, at least one)
before the place alternation; returns the captured text. -/
def locTryK (run : Str) : Nat → Option Str
  | 0 => none
  | k + 1 =>
    match placeAltLen (run.drop (k + 1)) with
    | some plen => some (run.take (k + 1) ++ (run.drop (k + 1)).take plen)
    | none => locTryK run k

/-- Backtracking over the `\s+` of the location regex: try consuming `j`
whitespace characters (from the maximal run downward, at least one). -/
def locTryJ (rest : Str) : Nat → Option Str
  | 0 => none
  | j + 1 =>
    let run := rest.drop (j + 1)
    match locTryK run (countWhile isAlphaSpaceChar run) with
    | some cap => some cap
    | none => locTryJ rest j

/-- Try the location regex with its keyword alternatives at one position. -/
def locTryKws : List Str → Str → Option Str
  | [], _ => none
  | kw :: kws, s =>
    match
      (if ciPre kw s then
        let rest := s.drop kw.length
        locTryJ rest (countWhile isSpaceChar rest)
      else none) with
    | some cap => some cap
    | none => locTryKws kws s

/-- Leftmost scan of the location regex over the query. -/
def locScan : Str → Option Str
  | [] => none
  | s@(_ :: rest) =>
    match locTryKws locationKws s with
    | some cap => some cap
    | none => locScan rest

/-- `parseLocationQuery` from the geocoding service: the first match of
`(near|close to|in|by|around|next to)\s+([A-Za-z\s]+(place names))`,
case-insensitive, returning the trimmed capture. -/
def parseLocationQuery (query : Str) : Option Str :=
  (locScan query).map trimStr

/-- A property listing (the `Property` row of the shared schema together
with the optional coordinates attached by the storage layer). -/
structure Property where
  id : Nat
  title : Str
  description : Str
  location : Str
  type : Str
  style : Str
  bedrooms : Nat
  bathrooms : Nat
  price : ℚ
  view : Str
  furnishing : Str
  coordinates : Option Coordinates := none
deriving DecidableEq, Repr

/-- The `targetLocation` entry of the extracted attributes. -/
structure TargetLocation where
  name : Str
  coordinates : Coordinates
deriving DecidableEq, Repr

/-- The `priceRanges` entry of the extracted attributes. -/
structure PriceRanges where
  min : Option ℚ := none
  max : Option ℚ := none
  target : Option ℚ := none
deriving DecidableEq, Repr

/-- The `specificAttributes` record assembled by the search handler; each
field is absent when the corresponding pattern did not match (the `type`
key is present exactly when the list is nonempty). -/
structure SpecificAttributes where
  targetLocation : Option TargetLocation := none
  bedrooms : Option Nat := none
  bathrooms : Option Nat := none
  priceRanges : Option PriceRanges := none
  type : List Str := []
deriving DecidableEq, Repr

/-- `Object.keys(specificAttributes).length > 0`. -/
def SpecificAttributes.isPresent (a : SpecificAttributes) : Bool :=
  a.targetLocation.isSome || a.bedrooms.isSome || a.bathrooms.isSome ||
    a.priceRanges.isSome || !a.type.isEmpty

/-- One `(id, score)` pair returned by the vector-search provider.  The
provider returns ids as strings of decimal digits; since `toString` is
injective on numeric ids they are modelled as the numeric ids. -/
structure VecHit where
  id : Nat
  score : ℚ
deriving DecidableEq, Repr

/-- A scored result: the listing spread together with its score, the
`exactMatch` flag and the optional rounded distance (absent JS fields are
modelled by the defaults, matching their falsy behaviour). -/
structure ScoredResult where
  property : Property
  score : ℚ
  exactMatch : Bool := false
  distance : Option ℚ := none
deriving DecidableEq, Repr

/-- Try `/(\d+)[\s-]word/i` at the start of `s`: a maximal nonempty digit
run, one whitespace-or-hyphen character, then `word` (case-insensitive);
returns the digit capture. -/
def digitWordMatchAt (word s : Str) : Option Str :=
  let ds := s.takeWhile isDigitChar
  if ds.isEmpty then none
  else
    match s.drop ds.length with
    | c :: rest =>
      if (isSpaceChar c || c = '-') && ciPre word rest then some ds else none
    | [] => none

/-- Leftmost scan for `/(\d+)[\s-]word/i` (the bedroom/bathroom patterns,
with `word` being "bed" or "bath"). -/
def digitWordScan (word : Str) : Str → Option Str
  | [] => none
  | s@(_ :: rest) =>
    match digitWordMatchAt word s with
    | some ds => some ds
    | none => digitWordScan word rest

/-- Keyword alternatives of the "under" price pattern, in order. -/
def underKws : List Str :=
  [str "under", str "below", str "less than", str "cheaper than",
   str "max", str "maximum"]

/-- Keyword alternatives of the "over" price pattern, in order. -/
def overKws : List Str :=
  [str "over", str "above", str "more than", str "at least",
   str "min", str "minimum"]

/-- Keyword alternatives of the "around" price pattern, in order. -/
def aroundKws : List Str :=
  [str "around", str "about", str "approximately", str "close to", str "near"]

/-- Candidate consumed lengths (in backtracking order) of the middle part
`(?:\s+of)?\s+` of the under/over price patterns. -/
def midOf (rest : Str) : List Nat :=
  let w := countWhile isSpaceChar rest
  (if 1 ≤ w && ciPre (str "of") (rest.drop w) then
    let after := rest.drop (w + 2)
    let w2 := countWhile isSpaceChar after
    if 1 ≤ w2 then [w + 2 + w2] else []
  else []) ++ (if 1 ≤ w then [w] else [])

/-- Candidate consumed lengths of `(?:\s+a)?` of the "around" pattern. -/
def aroundG1 (rest : Str) : List Nat :=
  let w := countWhile isSpaceChar rest
  (if 1 ≤ w && ciPre (str "a") (rest.drop w) then [w + 1] else []) ++ [0]

/-- Candidate consumed lengths of `(?:\s+price(?:\s+of)?)?` of the
"around" pattern. -/
def aroundG2 (rest : Str) : List Nat :=
  let w := countWhile isSpaceChar rest
  (if 1 ≤ w && ciPre (str "price") (rest.drop w) then
    let base := w + 5
    let after := rest.drop base
    let w2 := countWhile isSpaceChar after
    (if 1 ≤ w2 && ciPre (str "of") (after.drop w2) then [base + w2 + 2] else [])
      ++ [base]
  else []) ++ [0]

/-- Candidate consumed lengths (in backtracking order) of the middle part
`(?:\s+a)?(?:\s+price(?:\s+of)?)?\s+` of the "around" price pattern. -/
def midAround (rest : Str) : List Nat :=
  (aroundG1 rest).flatMap (fun c1 =>
    (aroundG2 (rest.drop c1)).filterMap (fun c2 =>
      let after := rest.drop (c1 + c2)
      let w := countWhile isSpaceChar after
      if 1 ≤ w then some (c1 + c2 + w) else none))

/-- The shared tail `(?:£|\$|€)?(\d[\d,]*(?:\.\d+)?)\s*(?:k|thousand|m|million)?`
of the three price patterns, matched at the start of `s`; returns the
number of characters consumed and the number capture. -/
def priceTail (s : Str) : Option (Nat × Str) :=
  let cur : Nat := match s with
    | c :: _ => if c = '£' || c = '$' || c = '€' then 1 else 0
    | [] => 0
  match s.drop cur with
  | [] => none
  | d :: r1 =>
    if isDigitChar d then
      let run := r1.takeWhile (fun c => isDigitChar c || c = ',')
      let afterRun := r1.drop run.length
      let decPart : Str := match afterRun with
        | '.' :: r2 =>
          let fs := r2.takeWhile isDigitChar
          if fs.isEmpty then [] else '.' :: fs
        | _ => []
      let capture := d :: (run ++ decPart)
      let afterDec := afterRun.drop decPart.length
      let wsN := countWhile isSpaceChar afterDec
      let afterWs := afterDec.drop wsN
      let sufLen : Nat :=
        match [str "k", str "thousand", str "m", str "million"].find?
            (fun p => ciPre p afterWs) with
        | some p => p.length
        | none => 0
      some (cur + capture.length + wsN + sufLen, capture)
    else none

/-- Try each middle candidate in backtracking order, then the price tail. -/
def tryMids : List Nat → Nat → Str → Option (Nat × Str)
  | [], _, _ => none
  | m :: ms, kwLen, after =>
    match priceTail (after.drop m) with
    | some (tl, cap) => some (kwLen + m + tl, cap)
    | none => tryMids ms kwLen after

/-- Try the keyword alternatives of a price pattern at one position, with
full backtracking into the middle part and the tail. -/
def tryPriceKws : List Str → (Str → List Nat) → Str → Option (Nat × Str)
  | [], _, _ => none
  | kw :: kws, mid, s =>
    match
      (if ciPre kw s then
        let after := s.drop kw.length
        tryMids (mid after) kw.length after
      else none) with
    | some r => some r
    | none => tryPriceKws kws mid s

/-- Leftmost scan of a price pattern; returns the whole matched text
(`match[0]`) and the number capture (`match[1]`). -/
def priceScan (kws : List Str) (mid : Str → List Nat) : Str → Option (Str × Str)
  | [] => none
  | s@(_ :: rest) =>
    match tryPriceKws kws mid s with
    | some (len, cap) => some (s.take len, cap)
    | none => priceScan kws mid rest

/-- The k/thousand and m/million handling of the handler: the whole match
text is lower-cased and checked with `includes` for `'k'`/`"thousand"`,
then `'m'`/`"million"`. -/
def applyKmSuffix (match0 : Str) (price : ℚ) : ℚ :=
  let low := lowerStr match0
  if containsSub low (str "k") || containsSub low (str "thousand") then
    price * 1000
  else if containsSub low (str "m") || containsSub low (str "million") then
    price * 1000000
  else price

/-- The numeric value derived from one price match: commas stripped from
the capture, parsed, then the k/m handling applied to the whole match. -/
def priceOfMatch (m : Str × Str) : ℚ :=
  applyKmSuffix m.1 (parseDec (stripCommas m.2))

/-- The `priceRanges` extraction of the handler: the under pattern sets
`max`, the over pattern sets `min`, and the around pattern sets `target`
and overwrites `min`/`max` with a ±20% band; the record is present when
at least one pattern matched. -/
def extractPriceRanges (q : Str) : Option PriceRanges :=
  let u := priceScan underKws midOf q
  let o := priceScan overKws midOf q
  let a := priceScan aroundKws midAround q
  let r1 : PriceRanges := {}
  let r2 := match u with
    | none => r1
    | some m => { r1 with max := some (priceOfMatch m) }
  let r3 := match o with
    | none => r2
    | some m => { r2 with min := some (priceOfMatch m) }
  let r4 := match a with
    | none => r3
    | some m =>
      let p := priceOfMatch m
      let range := p * 0.2
      { r3 with target := some p, min := some (p - range), max := some (p + range) }
  if u.isSome || o.isSome || a.isSome then some r4 else none

/-- The fixed enumerated type list of the handler, in source order. -/
def typeKeywords : List Str :=
  [str "House", str "Flat", str "Apartment", str "Studio", str "Cottage",
   str "Bungalow", str "Penthouse", str "Townhouse"]

/-- The type keywords found case-insensitively in the query, in list order. -/
def typeMatches (q : Str) : List Str :=
  typeKeywords.filter (fun t => containsSub (lowerStr q) (lowerStr t))

/-- The whole attribute-extraction pass of the search handler. -/
def extractSpecificAttributes (q : Str) : SpecificAttributes :=
  { targetLocation :=
      (parseLocationQuery q).map
        (fun name => { name := name, coordinates := getCoordinates name })
  , bedrooms := (digitWordScan (str "bed") q).map parseDigits
  , bathrooms := (digitWordScan (str "bath") q).map parseDigits
  , priceRanges := extractPriceRanges q
  , type := typeMatches q }

/-- JS `Math.round`: round half toward positive infinity. -/
def jsRound (x : ℚ) : ℤ := ⌊x + 1 / 2⌋

/-- JS `\w` word-character class (used by the `\b` assertions). -/
def isWordChar (c : Char) : Bool :=
  isDigitChar c || ('a' ≤ c && c ≤ 'z') || ('A' ≤ c && c ≤ 'Z') || c = '_'

/-- A `\b` assertion holds between two (possibly absent) characters when
exactly one of them is a word character. -/
def boundaryBetween (a b : Option Char) : Bool :=
  (match a with | some c => isWordChar c | none => false)
    != (match b with | some c => isWordChar c | none => false)

/-- Does `\bterm\b` (case-insensitive) match at the start of `s`, with
`prev` the character before this position? -/
def wbAt (prev : Option Char) (s term : Str) : Bool :=
  ciPre term s && boundaryBetween prev term.head?
    && boundaryBetween term.getLast? ((s.drop term.length).head?)

/-- Scan for `\bterm\b` anywhere in the remaining string. -/
def wbSearch (term : Str) : Option Char → Str → Bool
  | prev, [] => wbAt prev [] term
  | prev, s@(c :: rest) => wbAt prev s term || wbSearch term (some c) rest

/-- The whole-word test `new RegExp('\b' + term + '\b', 'i').test(field)`
of the fallback matcher, modelled for terms without regex
metacharacters (the terms exercised here are plain words). -/
def wholeWordTest (term field : Str) : Bool :=
  wbSearch term none field

/-- The disjunction of the seven per-field case-insensitive substring
checks of the fallback matcher (used both for the full query and for the
individual terms). -/
def fieldSubstrMatch (p : Property) (s : Str) : Bool :=
  containsCi p.title s || containsCi p.description s || containsCi p.location s ||
    containsCi p.type s || containsCi p.style s || containsCi p.view s ||
    containsCi p.furnishing s

/-- One step of the fallback text matcher: the seven case-insensitive
field/substring checks, the per-term checks, the score increments, and
the retention decision; `nq` is the lower-cased query.  Returns the
rescored result, or `none` when the listing is dropped. -/
def fallbackScore (nq : Str) (r : ScoredResult) : Option ScoredResult :=
  let p := r.property
  let titleMatch := containsCi p.title nq
  let descMatch := containsCi p.description nq
  let locationMatch := containsCi p.location nq
  let typeMatch := containsCi p.type nq
  let styleMatch := containsCi p.style nq
  let viewMatch := containsCi p.view nq
  let furnishingMatch := containsCi p.furnishing nq
  let queryTerms := splitWs nq
  let termMatches := queryTerms.filter (fun t => fieldSubstrMatch p t)
  let s1 := r.score
    + (if titleMatch then 0.25 else 0)
    + (if typeMatch then 0.20 else 0)
    + (if styleMatch then 0.15 else 0)
    + (if viewMatch then 0.15 else 0)
    + (if locationMatch then 0.10 else 0)
    + (if furnishingMatch then 0.10 else 0)
    + (if descMatch then 0.05 else 0)
  let s2 :=
    if 0 < termMatches.length then
      s1 + 0.1 * ((termMatches.length : ℚ) / (queryTerms.length : ℚ))
    else s1
  let s3 := queryTerms.foldl (fun acc t =>
    if t.length ≤ 3 then acc
    else acc
      + (if wholeWordTest t p.title then 0.15 else 0)
      + (if wholeWordTest t p.type then 0.15 else 0)
      + (if wholeWordTest t p.style then 0.10 else 0)
      + (if wholeWordTest t p.view then 0.10 else 0)) s2
  if 0 < termMatches.length || titleMatch || descMatch || locationMatch ||
      typeMatch || styleMatch || viewMatch || furnishingMatch then
    some { r with score := s3 }
  else none

/-- Stable insertion of one element into a list sorted by descending
score: the element goes after every earlier element whose score is at
least as large. -/
def insertDesc (x : ScoredResult) : List ScoredResult → List ScoredResult
  | [] => [x]
  | y :: ys => if x.score < y.score then y :: insertDesc x ys else x :: y :: ys

/-- `results.sort((a, b) => b.score - a.score)` — a stable sort by
descending score (`Array.prototype.sort` is stable). -/
def sortByScoreDesc (l : List ScoredResult) : List ScoredResult :=
  l.foldr insertDesc []

/-- The fallback branch of the handler: every listing gets base score 0.5;
when the trimmed query is nonempty the text matcher filters and rescores
the listings and sorts them by descending score. -/
def fallbackResults (query : Str) (props : List Property) : List ScoredResult :=
  let base : List ScoredResult := props.map (fun p => { property := p, score := 0.5 })
  if (trimStr query).isEmpty then base
  else sortByScoreDesc (base.filterMap (fallbackScore (lowerStr query)))

/-- The per-result attribute-boost pass of the handler.  `calcDist`
abstracts `calculateDistance` (the haversine formula uses transcendental
functions, so the distance function is a parameter of the model; no claim
depends on its values). -/
def boostResult (calcDist : Coordinates → Coordinates → ℚ)
    (attrs : SpecificAttributes) (r : ScoredResult) : ScoredResult :=
  let p := r.property
  let locPart : ℚ × Bool × Option ℚ :=
    match attrs.targetLocation with
    | none => (0, true, r.distance)
    | some tl =>
      match p.coordinates with
      | some coords =>
        let d := calcDist tl.coordinates coords
        let dd := (jsRound (d * 10) : ℚ) / 10
        let pb := calculateProximityBoost d
        if d ≤ 2 then (pb + 0.2, true, some dd) else (pb, false, some dd)
      | none =>
        if containsSub (lowerStr p.location) (lowerStr tl.name) ||
            containsSub (lowerStr tl.name) (lowerStr p.location) then
          (0.15, true, r.distance)
        else (0, false, r.distance)
  let bedPart : ℚ × Bool :=
    match attrs.bedrooms with
    | none => (0, true)
    | some n => if p.bedrooms = n then (0.3, true) else (0, false)
  let bathPart : ℚ × Bool :=
    match attrs.bathrooms with
    | none => (0, true)
    | some n => if p.bathrooms = n then (0.3, true) else (0, false)
  let pricePart : ℚ × Bool :=
    match attrs.priceRanges with
    | none => (0, true)
    | some pr =>
      let minPart : ℚ × Bool :=
        match pr.min with
        | some m =>
          if m ≠ 0 then
            if p.price < m then (0, false) else (0.2, true)
          else (0, true)
        | none => (0, true)
      let maxPart : ℚ × Bool :=
        match pr.max with
        | some m =>
          if m ≠ 0 then
            if m < p.price then (0, false) else (0.2, true)
          else (0, true)
        | none => (0, true)
      let targetPart : ℚ × Bool :=
        match pr.target with
        | some t =>
          if t ≠ 0 then
            let pd := |p.price - t| / t
            if pd ≤ 0.05 then (0.35, true)
            else if pd ≤ 0.1 then (0.25, true)
            else if pd ≤ 0.2 then (0.15, true)
            else (0, false)
          else (0, true)
        | none => (0, true)
      (minPart.1 + maxPart.1 + targetPart.1,
       minPart.2 && maxPart.2 && targetPart.2)
  let typePart : ℚ × Bool :=
    match attrs.type with
    | [] => (0, true)
    | ts => if ts.any (fun t => p.type = t) then (0.2, true) else (0, false)
  let isExact := locPart.2.1 && bedPart.2 && bathPart.2 && pricePart.2 && typePart.2
  let matchBoost := locPart.1 + bedPart.1 + bathPart.1 + pricePart.1 + typePart.1
  let matchBoost := if isExact then matchBoost + 0.5 else matchBoost
  { r with
      score := r.score + matchBoost
      exactMatch := isExact
      distance := locPart.2.2 }

/-- The exact-match prioritisation of the handler: when at least one
result carries the flag, the flagged results are concatenated before the
unflagged ones. -/
def exactFirst (results : List ScoredResult) : List ScoredResult :=
  let ex := results.filter (fun r => r.exactMatch)
  if ex.isEmpty then results
  else ex ++ results.filter (fun r => !r.exactMatch)

/-- `Math.max(...)` over a score list. -/
def listMaxQ : List ℚ → ℚ
  | [] => 0
  | x :: xs => xs.foldl max x

/-- `Math.min(...)` over a score list. -/
def listMinQ : List ℚ → ℚ
  | [] => 0
  | x :: xs => xs.foldl min x

/-- The per-score renormalisation map of the handler: linear rescale to
0–100, rounded to 2 decimals, clamped into [0, 100]. -/
def normScore (minS range s : ℚ) : ℚ :=
  min 100 (max 0 ((jsRound ((s - minS) / range * 100 * 100) : ℚ) / 100))

/-- The score-normalisation step over the top-20 slice: rescale when the
score range is positive, otherwise set every score to 100. -/
def normalizeTop (tops : List ScoredResult) : List ScoredResult :=
  if tops.isEmpty then tops
  else
    let maxS := listMaxQ (tops.map (fun r => r.score))
    let minS := listMinQ (tops.map (fun r => r.score))
    let range := maxS - minS
    if 0 < range then
      tops.map (fun r => { r with score := normScore minS range r.score })
    else
      tops.map (fun r => { r with score := 100 })

/-- The ranking tail shared by both branches of the handler: the boost
pass and exact-match prioritisation (only when any attribute was
extracted), the global sort by descending score, the top-20 slice, and
the renormalisation. -/
def rankResults (calcDist : Coordinates → Coordinates → ℚ)
    (attrs : SpecificAttributes) (results : List ScoredResult) :
    List ScoredResult :=
  let boosted :=
    if attrs.isPresent then exactFirst (results.map (boostResult calcDist attrs))
    else results
  normalizeTop ((sortByScoreDesc boosted).take 20)

/-- `storage.getPropertiesByIds`: map each id through the store lookup and
drop the misses. -/
def getPropertiesByIds (ids : List Nat) (store : List Property) : List Property :=
  ids.filterMap (fun i => store.find? (fun p => p.id = i))

/-- Joining the vector hits with the fetched listings
(`searchResults.map(...).filter(item => item !== null)`). -/
def vectorJoin (hits : List VecHit) (props : List Property) : List ScoredResult :=
  hits.filterMap (fun h =>
    (props.find? (fun p => p.id = h.id)).map
      (fun p => { property := p, score := h.score }))

/-- The effects the handler can perform, recorded as a trace. -/
inductive Eff where
  | validate
  | embedCall
  | vectorCall
deriving DecidableEq, Repr

/-- A thrown JS error, as inspected by the handler's catch blocks. -/
structure JsError where
  status : Option Nat := none
  message : Str := []
deriving DecidableEq, Repr

/-- The response shapes of POST /property/search: a 200 result list, a
503 with a `missingKey` field, the inner 500 returned on a non-429
search failure, or the generic 500 of the outer catch. -/
inductive Response where
  | results (rs : List ScoredResult)
  | missingKey (key : Str)
  | searchError (errMsg : Str)
  | internalError
deriving DecidableEq, Repr

/-- HTTP status of each response shape. -/
def responseStatus : Response → Nat
  | .results _ => 200
  | .missingKey _ => 503
  | .searchError _ => 500
  | .internalError => 500

/-- JS falsiness of `process.env.X` for a possibly-absent string: unset or
empty is falsy. -/
def jsFalsyStr : Option Str → Bool
  | none => true
  | some s => s.isEmpty

/-- Everything the handler does after the embedding/vector phase decided
the hit list: attribute extraction feeds the ranking tail; an empty hit
list means the fallback over the whole store. -/
def searchTail (calcDist : Coordinates → Coordinates → ℚ) (q : Str)
    (store : List Property) (hits : List VecHit) : List ScoredResult :=
  let attrs := extractSpecificAttributes q
  let results :=
    if hits.isEmpty then fallbackResults q store
    else vectorJoin hits (getPropertiesByIds (hits.map (fun h => h.id)) store)
  rankResults calcDist attrs results

/-- The POST /property/search handler: key checks, body validation, the
embedding/vector-search phase with its catch logic, and the ranking
tail.  The provider outcomes are inputs; the returned trace records the
effects that were reached. -/
def searchHandler (calcDist : Coordinates → Coordinates → ℚ)
    (openaiKey pineconeKey : Option Str) (body : Option Str)
    (embedRes : Except JsError Unit) (vecRes : Except JsError (List VecHit))
    (store : List Property) : Response × List Eff :=
  if jsFalsyStr openaiKey then (.missingKey (str "OPENAI_API_KEY"), [])
  else if jsFalsyStr pineconeKey then (.missingKey (str "PINECONE_API_KEY"), [])
  else
    match body with
    | none => (.internalError, [.validate])
    | some q =>
      if q.isEmpty then (.internalError, [.validate])
      else
        match embedRes with
        | .error _ =>
          (.results (searchTail calcDist q store []), [.validate, .embedCall])
        | .ok _ =>
          match vecRes with
          | .error e =>
            if e.status = some 429 then
              (.results (searchTail calcDist q store []),
               [.validate, .embedCall, .vectorCall])
            else
              (.searchError e.message, [.validate, .embedCall, .vectorCall])
          | .ok hits =>
            (.results (searchTail calcDist q store hits),
             [.validate, .embedCall, .vectorCall])

/-- First listing of the exact-match-ordering counterexample: does not
have the requested bedroom count, but a high raw similarity score. -/
def cexA : Property :=
  { id := 1, title := str "Big house", description := str "d",
    location := str "X", type := str "House", style := str "Modern",
    bedrooms := 2, bathrooms := 1, price := 100000, view := str "City",
    furnishing := str "Furnished" }

/-- Second listing of the exact-match-ordering counterexample: an exact
match on the requested bedroom count, with a low raw similarity score. -/
def cexB : Property :=
  { id := 2, title := str "Small house", description := str "d",
    location := str "Y", type := str "House", style := str "Modern",
    bedrooms := 3, bathrooms := 1, price := 100000, view := str "City",
    furnishing := str "Furnished" }

/-- `parseDec` on an all-digit string is the numeral it denotes. -/
theorem parseDec_digitsOnly (s : Str) (n : Nat)
    (hs : s.takeWhile isDigitChar = s) (hn : parseDigits s = n) :
    parseDec s = (n : ℚ) := by
  simp only [parseDec, hs, List.drop_length]
  norm_num [hn, show parseDigits ([] : Str) = 0 from rfl]

/-- C9: `calculateProximityBoost` returns 0.4 below 1 km, 0.3 below 5 km,
0.2 below 20 km, 0.1 below 50 km and 0 from 50 km on; the boost at 0 km
strictly exceeds the boost at 60 km, and the boost is monotonically
non-increasing in the distance. -/
theorem calculateProximityBoost_tiers :
    (∀ d : ℚ, 0 ≤ d →
      ((d < 1 → calculateProximityBoost d = 0.4) ∧
       (1 ≤ d → d < 5 → calculateProximityBoost d = 0.3) ∧
       (5 ≤ d → d < 20 → calculateProximityBoost d = 0.2) ∧
       (20 ≤ d → d < 50 → calculateProximityBoost d = 0.1) ∧
       (50 ≤ d → calculateProximityBoost d = 0))) ∧
    calculateProximityBoost 60 < calculateProximityBoost 0 ∧
    (∀ d₁ d₂ : ℚ, 0 ≤ d₁ → d₁ ≤ d₂ →
      calculateProximityBoost d₂ ≤ calculateProximityBoost d₁) := by
  refine ⟨fun d _ => ⟨?_, ?_, ?_, ?_, ?_⟩, ?_, fun d₁ d₂ _ hle => ?_⟩ <;>
    unfold calculateProximityBoost <;>
    intros <;> split_ifs <;> first | rfl | linarith

/-- Witness for C9 at concrete distances 0.5 km and (0 km, 60 km). -/
theorem calculateProximityBoost_tiers_witness :
    ((0 : ℚ) ≤ 0.5 ∧ (0.5 : ℚ) < 1 ∧ calculateProximityBoost 0.5 = 0.4) ∧
    ((0 : ℚ) ≤ 0 ∧ (0 : ℚ) ≤ 60 ∧
      calculateProximityBoost 60 ≤ calculateProximityBoost 0) :=
  ⟨⟨by norm_num, by norm_num,
    (calculateProximityBoost_tiers.1 0.5 (by norm_num)).1 (by norm_num)⟩,
   ⟨le_refl 0, by norm_num,
    calculateProximityBoost_tiers.2.2 0 60 (le_refl 0) (by norm_num)⟩⟩

/-- C3 (code bug): the k/m multiplier is decided by `includes` over the
whole matched text, so "maximum 500" — whose keyword contains the letter
m and which has no suffix at all — is multiplied by 1,000,000, while the
three examples of the claim do evaluate as stated. -/
theorem priceRanges_km_evaluation :
    extractPriceRanges (str "maximum 500") =
      some { min := none, max := some 500000000, target := none } ∧
    extractPriceRanges (str "under £500k") =
      some { min := none, max := some 500000, target := none } ∧
    extractPriceRanges (str "over 1m") =
      some { min := some 1000000, max := none, target := none } ∧
    extractPriceRanges (str "around 750k") =
      some { min := some 600000, max := some 900000, target := some 750000 } := by
  have h500 : parseDec (stripCommas (str "500")) = (500 : ℚ) := by
    have : stripCommas (str "500") = str "500" := by decide
    rw [this]; exact parseDec_digitsOnly _ 500 (by decide) (by decide)
  have h1v : priceOfMatch (str "maximum 500", str "500") = 500000000 := by
    have hk : containsSub (lowerStr (str "maximum 500")) (str "k") = false := by decide
    have ht : containsSub (lowerStr (str "maximum 500")) (str "thousand") = false := by decide
    have hm : containsSub (lowerStr (str "maximum 500")) (str "m") = true := by decide
    norm_num [priceOfMatch, applyKmSuffix, hk, ht, hm, h500]
  have h2v : priceOfMatch (str "under £500k", str "500") = 500000 := by
    have hk : containsSub (lowerStr (str "under £500k")) (str "k") = true := by decide
    norm_num [priceOfMatch, applyKmSuffix, hk, h500]
  have h3v : priceOfMatch (str "over 1m", str "1") = 1000000 := by
    have h1 : parseDec (stripCommas (str "1")) = (1 : ℚ) := by
      have : stripCommas (str "1") = str "1" := by decide
      rw [this]; exact parseDec_digitsOnly _ 1 (by decide) (by decide)
    have hk : containsSub (lowerStr (str "over 1m")) (str "k") = false := by decide
    have ht : containsSub (lowerStr (str "over 1m")) (str "thousand") = false := by decide
    have hm : containsSub (lowerStr (str "over 1m")) (str "m") = true := by decide
    norm_num [priceOfMatch, applyKmSuffix, hk, ht, hm, h1]
  have h4v : priceOfMatch (str "around 750k", str "750") = 750000 := by
    have h1 : parseDec (stripCommas (str "750")) = (750 : ℚ) := by
      have : stripCommas (str "750") = str "750" := by decide
      rw [this]; exact parseDec_digitsOnly _ 750 (by decide) (by decide)
    have hk : containsSub (lowerStr (str "around 750k")) (str "k") = true := by decide
    norm_num [priceOfMatch, applyKmSuffix, hk, h1]
  refine ⟨?_, ?_, ?_, ?_⟩
  · have hu : priceScan underKws midOf (str "maximum 500") =
        some (str "maximum 500", str "500") := by decide
    have ho : priceScan overKws midOf (str "maximum 500") = none := by decide
    have ha : priceScan aroundKws midAround (str "maximum 500") = none := by decide
    simp [extractPriceRanges, hu, ho, ha, h1v]
  · have hu : priceScan underKws midOf (str "under £500k") =
        some (str "under £500k", str "500") := by decide
    have ho : priceScan overKws midOf (str "under £500k") = none := by decide
    have ha : priceScan aroundKws midAround (str "under £500k") = none := by decide
    simp [extractPriceRanges, hu, ho, ha, h2v]
  · have hu : priceScan underKws midOf (str "over 1m") = none := by decide
    have ho : priceScan overKws midOf (str "over 1m") =
        some (str "over 1m", str "1") := by decide
    have ha : priceScan aroundKws midAround (str "over 1m") = none := by decide
    simp [extractPriceRanges, hu, ho, ha, h3v]
  · have hu : priceScan underKws midOf (str "around 750k") = none := by decide
    have ho : priceScan overKws midOf (str "around 750k") = none := by decide
    have ha : priceScan aroundKws midAround (str "around 750k") =
        some (str "around 750k", str "750") := by decide
    simp [extractPriceRanges, hu, ho, ha, h4v]
    norm_num

/-- C5 counterexample: "12 bed" contains the substring "2 bed" (so the
claim demands bedroom count 2 there), but the extractor returns 12. -/
theorem bedrooms_substring_cex :
    containsSub (str "12 bed") (str "2 bed") = true ∧
    (extractSpecificAttributes (str "12 bed")).bedrooms = some 12 ∧
    (extractSpecificAttributes (str "12 bed")).bedrooms ≠ some 2 :=
  ⟨by decide, by decide, by decide⟩

/-- `takeWhile` of a block of satisfying characters followed by a failing
character is that block. -/
theorem takeWhile_all_append (p : Char → Bool) (l : List Char) (c : Char)
    (t : List Char) (hl : ∀ x ∈ l, p x = true) (hc : p c = false) :
    (l ++ c :: t).takeWhile p = l := by
  induction l with
  | nil => simp [List.takeWhile_cons, hc]
  | cons a as ih =>
    have ha : p a = true := hl a (by simp)
    simp [List.takeWhile_cons, ha]
    exact ih (fun x hx => hl x (by simp [hx]))

/-- Every list is a prefix of itself extended on the right. -/
theorem isPre_append_self (l r : Str) : isPre l (l ++ r) = true := by
  induction l with
  | nil => rfl
  | cons a as ih => simpa [isPre] using ih

/-- The bedroom/bathroom pattern matches at a position starting with a
digit run that is followed by a separator and the key word. -/
theorem digitWordMatchAt_hit (word ds : Str) (c : Char) (t : Str)
    (hds : ds ≠ []) (hdig : ∀ x ∈ ds, isDigitChar x = true)
    (hcnd : isDigitChar c = false)
    (hcok : (isSpaceChar c || c = '-') = true)
    (hw : ciPre word t = true) :
    digitWordMatchAt word (ds ++ c :: t) = some ds := by
  have hemp : ds.isEmpty = false := by
    cases ds with
    | nil => exact absurd rfl hds
    | cons d ds' => rfl
  simp [digitWordMatchAt, takeWhile_all_append _ _ _ _ hdig hcnd, hemp,
    List.drop_left, hcok, hw]

/-- Leftmost scanning of the bedroom/bathroom pattern skips any prefix
containing no digit characters. -/
theorem digitWordScan_skip_nondigits (word pre rest : Str)
    (hpre : ∀ x ∈ pre, isDigitChar x = false) :
    digitWordScan word (pre ++ rest) = digitWordScan word rest := by
  induction pre with
  | nil => rfl
  | cons a as ih =>
    have ha : isDigitChar a = false := hpre a (by simp)
    have hfail : digitWordMatchAt word (a :: (as ++ rest)) = none := by
      unfold digitWordMatchAt
      simp [List.takeWhile_cons, ha]
    calc digitWordScan word ((a :: as) ++ rest)
        = digitWordScan word (as ++ rest) := by
          simp [digitWordScan, hfail]
      _ = digitWordScan word rest := ih (fun x hx => hpre x (by simp [hx]))

/-- C5 amended: the extractor returns the digits of the leftmost match of
the pattern digit-run + space/hyphen + "bed": whenever the query splits
as a digit-free prefix, a digit run, a space or hyphen, and "bed", the
extracted bedroom count is exactly the number denoted by that digit run. -/
theorem bedrooms_leftmost_match (pre ds post : Str) (c : Char)
    (hpre : ∀ x ∈ pre, isDigitChar x = false)
    (hds : ds ≠ []) (hdig : ∀ x ∈ ds, isDigitChar x = true)
    (hc : (isSpaceChar c || c = '-') = true) :
    (extractSpecificAttributes (pre ++ ds ++ c :: (str "bed" ++ post))).bedrooms =
      some (parseDigits ds) := by
  have h1 : lowerStr (str "bed") = str "bed" := by decide
  have hbed : ciPre (str "bed") (str "bed" ++ post) = true := by
    show isPre (lowerStr (str "bed")) (lowerStr (str "bed" ++ post)) = true
    have h2 : lowerStr (str "bed" ++ post) = str "bed" ++ lowerStr post := by
      calc lowerStr (str "bed" ++ post)
          = lowerStr (str "bed") ++ lowerStr post := by simp [lowerStr]
        _ = str "bed" ++ lowerStr post := by rw [h1]
    rw [h1, h2]
    exact isPre_append_self _ _
  have hcnd : isDigitChar c = false := by
    have h := hc
    simp only [isSpaceChar, Bool.or_eq_true, decide_eq_true_eq] at h
    rcases h with (((((h | h) | h) | h) | h) | h) | h <;> subst h <;> decide
  have key : (digitWordScan (str "bed")
      (pre ++ (ds ++ c :: (str "bed" ++ post)))).map parseDigits =
      some (parseDigits ds) := by
    rw [digitWordScan_skip_nondigits _ _ _ hpre]
    obtain ⟨d, ds2, rfl⟩ : ∃ d ds2, ds = d :: ds2 := by
      cases ds with
      | nil => exact absurd rfl hds
      | cons d ds2 => exact ⟨d, ds2, rfl⟩
    have hhit := digitWordMatchAt_hit (str "bed") (d :: ds2) c (str "bed" ++ post)
      hds hdig hcnd hc hbed
    simp only [List.cons_append] at hhit ⊢
    simp [digitWordScan, hhit]
  rw [List.append_assoc]
  exact key

/-- Witness for the amended C5 at the concrete query "3 bed". -/
theorem bedrooms_leftmost_match_witness :
    (∀ x ∈ ([] : Str), isDigitChar x = false) ∧
    (['3'] : Str) ≠ [] ∧ (∀ x ∈ (['3'] : Str), isDigitChar x = true) ∧
    (isSpaceChar ' ' || ' ' = '-') = true ∧
    (extractSpecificAttributes ([] ++ ['3'] ++ ' ' :: (str "bed" ++ []))).bedrooms =
      some (parseDigits ['3']) :=
  ⟨by decide, by decide, by decide, by decide,
   bedrooms_leftmost_match [] ['3'] [] ' ' (by decide) (by decide) (by decide)
     (by decide)⟩

/-- C8: with the OpenAI key unset, the handler answers 503 with
`missingKey = "OPENAI_API_KEY"` and performs no effect at all — in
particular no embedding or vector-search call. -/
theorem missing_openai_key_503 (calcDist : Coordinates → Coordinates → ℚ)
    (pk : Option Str) (body : Option Str) (er : Except JsError Unit)
    (vr : Except JsError (List VecHit)) (store : List Property) :
    searchHandler calcDist none pk body er vr store =
      (.missingKey (str "OPENAI_API_KEY"), []) ∧
    responseStatus (searchHandler calcDist none pk body er vr store).1 = 503 :=
  ⟨rfl, rfl⟩

/-- C10: the provider-key checks precede body validation: a falsy OpenAI
key yields the 503 regardless of the body and the validation step is
never reached; conversely, whenever validation is reached, both provider
keys were present (truthy). -/
theorem key_check_precedes_validation (calcDist : Coordinates → Coordinates → ℚ)
    (ok pk : Option Str) (body : Option Str) (er : Except JsError Unit)
    (vr : Except JsError (List VecHit)) (store : List Property) :
    (jsFalsyStr ok = true →
      searchHandler calcDist ok pk body er vr store =
        (.missingKey (str "OPENAI_API_KEY"), [])) ∧
    (Eff.validate ∈ (searchHandler calcDist ok pk body er vr store).2 →
      jsFalsyStr ok = false ∧ jsFalsyStr pk = false) := by
  constructor
  · intro h
    simp [searchHandler, h]
  · intro hm
    cases hok : jsFalsyStr ok with
    | true => simp [searchHandler, hok] at hm
    | false =>
      cases hpk : jsFalsyStr pk with
      | true => simp [searchHandler, hok, hpk] at hm
      | false => exact ⟨rfl, rfl⟩

/-- Witness for C10: a present-but-empty key is falsy and yields the 503;
with both keys present and a missing body, validation is reached. -/
theorem key_check_precedes_validation_witness :
    (jsFalsyStr (some []) = true ∧
      searchHandler (fun _ _ => 0) (some []) (some (str "p")) (some (str "q"))
        (.ok ()) (.ok []) [] = (.missingKey (str "OPENAI_API_KEY"), [])) ∧
    (Eff.validate ∈ (searchHandler (fun _ _ => 0) (some (str "s")) (some (str "p"))
        none (.ok ()) (.ok []) []).2 ∧
      jsFalsyStr (some (str "s")) = false ∧ jsFalsyStr (some (str "p")) = false) := by
  have hm : Eff.validate ∈ (searchHandler (fun _ _ => 0) (some (str "s"))
      (some (str "p")) none (.ok ()) (.ok []) []).2 := by decide
  exact ⟨⟨by decide,
      (key_check_precedes_validation (fun _ _ => 0) (some []) (some (str "p"))
        (some (str "q")) (.ok ()) (.ok []) []).1 (by decide)⟩,
    hm, (key_check_precedes_validation (fun _ _ => 0) (some (str "s"))
      (some (str "p")) none (.ok ()) (.ok []) []).2 hm⟩

/-- C2 counterexample: a non-429 vector-search failure after a successful
embedding returns the inner HTTP 500 error response — the fallback
matcher is not run. -/
theorem vector_error_non429_returns_500 :
    searchHandler (fun _ _ => 0) (some (str "sk")) (some (str "pk"))
        (some (str "house")) (.ok ())
        (.error { status := some 400, message := str "boom" }) [] =
      (.searchError (str "boom"), [.validate, .embedCall, .vectorCall]) ∧
    responseStatus (Response.searchError (str "boom")) = 500 :=
  ⟨by decide, rfl⟩

/-- C2 amended: with both keys present and a nonempty body, an embedding
failure (any error), or a vector-search failure with status 429, makes
the handler run the fallback text matcher over the full listing set and
return a 200 result list; a non-429 vector-search failure after a
successful embedding instead returns the HTTP 500 error response. -/
theorem fallback_trigger_characterization
    (calcDist : Coordinates → Coordinates → ℚ) (ok pk : Option Str) (q : Str)
    (er : Except JsError Unit) (vr : Except JsError (List VecHit))
    (store : List Property)
    (hok : jsFalsyStr ok = false) (hpk : jsFalsyStr pk = false)
    (hq : q.isEmpty = false) :
    (∀ e, er = .error e →
      searchHandler calcDist ok pk (some q) er vr store =
        (.results (rankResults calcDist (extractSpecificAttributes q)
          (fallbackResults q store)), [.validate, .embedCall])) ∧
    (∀ e, er = .ok () → vr = .error e → e.status = some 429 →
      searchHandler calcDist ok pk (some q) er vr store =
        (.results (rankResults calcDist (extractSpecificAttributes q)
          (fallbackResults q store)), [.validate, .embedCall, .vectorCall])) ∧
    (∀ e, er = .ok () → vr = .error e → e.status ≠ some 429 →
      searchHandler calcDist ok pk (some q) er vr store =
        (.searchError e.message, [.validate, .embedCall, .vectorCall])) := by
  refine ⟨?_, ?_, ?_⟩
  · rintro e rfl
    simp [searchHandler, hok, hpk, hq, searchTail]
  · rintro e rfl rfl h429
    simp [searchHandler, hok, hpk, hq, searchTail, h429]
  · rintro e rfl rfl h429
    simp [searchHandler, hok, hpk, hq, searchTail, h429]

/-- Witness for the amended C2: a concrete embedding failure falls back
and returns a 200 result list. -/
theorem fallback_trigger_characterization_witness :
    jsFalsyStr (some (str "sk")) = false ∧ jsFalsyStr (some (str "pk")) = false ∧
    (str "x").isEmpty = false ∧
    searchHandler (fun _ _ => 0) (some (str "sk")) (some (str "pk"))
        (some (str "x")) (.error {}) (.ok []) [] =
      (.results (rankResults (fun _ _ => 0) (extractSpecificAttributes (str "x"))
        (fallbackResults (str "x") [])), [.validate, .embedCall]) :=
  ⟨by decide, by decide, by decide,
   (fallback_trigger_characterization (fun _ _ => 0) (some (str "sk"))
      (some (str "pk")) (str "x") (.error {}) (.ok []) []
      (by decide) (by decide) (by decide)).1 {} rfl⟩

/-- The seed is bounded by a `foldl max`. -/
theorem le_foldl_max (a : ℚ) (l : List ℚ) : a ≤ l.foldl max a := by
  induction l generalizing a with
  | nil => exact le_refl a
  | cons x xs ih => exact le_trans (le_max_left a x) (ih (max a x))

/-- Every member is bounded by a `foldl max`. -/
theorem mem_le_foldl_max (a : ℚ) (l : List ℚ) (x : ℚ) (hx : x ∈ l) :
    x ≤ l.foldl max a := by
  induction l generalizing a with
  | nil => cases hx
  | cons y ys ih =>
    rcases List.mem_cons.mp hx with rfl | h
    · exact le_trans (le_max_right a x) (le_foldl_max _ _)
    · exact ih _ h

/-- A `foldl max` is the seed or one of the members. -/
theorem foldl_max_mem (a : ℚ) (l : List ℚ) :
    l.foldl max a = a ∨ l.foldl max a ∈ l := by
  induction l generalizing a with
  | nil => exact Or.inl rfl
  | cons x xs ih =>
    rcases ih (max a x) with h | h
    · rcases max_choice a x with hm | hm
      · exact Or.inl (by rw [List.foldl_cons, h, hm])
      · exact Or.inr (by rw [List.foldl_cons, h, hm]; exact List.mem_cons_self x xs)
    · exact Or.inr (List.mem_cons_of_mem x h)

/-- A `foldl min` bounds the seed. -/
theorem foldl_min_le (a : ℚ) (l : List ℚ) : l.foldl min a ≤ a := by
  induction l generalizing a with
  | nil => exact le_refl a
  | cons x xs ih => exact le_trans (ih (min a x)) (min_le_left a x)

/-- A `foldl min` bounds every member. -/
theorem foldl_min_le_mem (a : ℚ) (l : List ℚ) (x : ℚ) (hx : x ∈ l) :
    l.foldl min a ≤ x := by
  induction l generalizing a with
  | nil => cases hx
  | cons y ys ih =>
    rcases List.mem_cons.mp hx with rfl | h
    · rw [List.foldl_cons]
      exact le_trans (foldl_min_le _ _) (min_le_right a x)
    · exact ih _ h

/-- A `foldl min` is the seed or one of the members. -/
theorem foldl_min_mem (a : ℚ) (l : List ℚ) :
    l.foldl min a = a ∨ l.foldl min a ∈ l := by
  induction l generalizing a with
  | nil => exact Or.inl rfl
  | cons x xs ih =>
    rcases ih (min a x) with h | h
    · rcases min_choice a x with hm | hm
      · exact Or.inl (by rw [List.foldl_cons, h, hm])
      · exact Or.inr (by rw [List.foldl_cons, h, hm]; exact List.mem_cons_self x xs)
    · exact Or.inr (List.mem_cons_of_mem x h)

/-- `Math.max` of a nonempty score list is one of the scores. -/
theorem listMaxQ_mem (l : List ℚ) (h : l ≠ []) : listMaxQ l ∈ l := by
  cases l with
  | nil => exact absurd rfl h
  | cons x xs =>
    rcases foldl_max_mem x xs with h1 | h1
    · rw [show listMaxQ (x :: xs) = xs.foldl max x from rfl, h1]
      exact List.mem_cons_self x xs
    · exact List.mem_cons_of_mem x h1

/-- Every score is at most `Math.max` of the list. -/
theorem le_listMaxQ (l : List ℚ) (x : ℚ) (hx : x ∈ l) : x ≤ listMaxQ l := by
  cases l with
  | nil => cases hx
  | cons y ys =>
    rcases List.mem_cons.mp hx with rfl | h
    · exact le_foldl_max _ _
    · exact mem_le_foldl_max _ _ _ h

/-- `Math.min` of a nonempty score list is one of the scores. -/
theorem listMinQ_mem (l : List ℚ) (h : l ≠ []) : listMinQ l ∈ l := by
  cases l with
  | nil => exact absurd rfl h
  | cons x xs =>
    rcases foldl_min_mem x xs with h1 | h1
    · rw [show listMinQ (x :: xs) = xs.foldl min x from rfl, h1]
      exact List.mem_cons_self x xs
    · exact List.mem_cons_of_mem x h1

/-- `Math.min` of the list bounds every score. -/
theorem listMinQ_le (l : List ℚ) (x : ℚ) (hx : x ∈ l) : listMinQ l ≤ x := by
  cases l with
  | nil => cases hx
  | cons y ys =>
    rcases List.mem_cons.mp hx with rfl | h
    · exact foldl_min_le _ _
    · exact foldl_min_le_mem _ _ _ h

/-- `Math.max` equals any member that bounds the whole list. -/
theorem listMaxQ_eq_of (l : List ℚ) (c : ℚ) (hc : c ∈ l)
    (hle : ∀ x ∈ l, x ≤ c) : listMaxQ l = c :=
  le_antisymm (hle _ (listMaxQ_mem l (List.ne_nil_of_mem hc))) (le_listMaxQ l c hc)

/-- `Math.min` equals any member that the whole list bounds. -/
theorem listMinQ_eq_of (l : List ℚ) (c : ℚ) (hc : c ∈ l)
    (hle : ∀ x ∈ l, c ≤ x) : listMinQ l = c :=
  le_antisymm (listMinQ_le l c hc) (hle _ (listMinQ_mem l (List.ne_nil_of_mem hc)))

/-- When a nonempty score list is not constant, the score range of the
normalisation step is strictly positive. -/
theorem range_pos_of_not_const (l : List ℚ) (h : l ≠ [])
    (hne : ¬ (∀ x ∈ l, ∀ y ∈ l, x = y)) : 0 < listMaxQ l - listMinQ l := by
  by_contra hle
  push_neg at hle
  apply hne
  intro x hx y hy
  have h1 := le_listMaxQ l x hx
  have h2 := listMinQ_le l x hx
  have h3 := le_listMaxQ l y hy
  have h4 := listMinQ_le l y hy
  linarith

/-- When a nonempty score list is constant, the score range is zero. -/
theorem range_zero_of_const (l : List ℚ) (h : l ≠ [])
    (he : ∀ x ∈ l, ∀ y ∈ l, x = y) : listMaxQ l - listMinQ l = 0 := by
  rw [he _ (listMaxQ_mem l h) _ (listMinQ_mem l h)]
  exact sub_self _

/-- The renormalisation map never exceeds 100. -/
theorem normScore_le_100 (minS range s : ℚ) : normScore minS range s ≤ 100 :=
  min_le_left _ _

/-- The renormalisation map is nonnegative. -/
theorem normScore_nonneg (minS range s : ℚ) : 0 ≤ normScore minS range s :=
  le_min (by norm_num) (le_max_left 0 _)

/-- The maximal raw score renormalises to exactly 100. -/
theorem normScore_at_max (minS maxS : ℚ) (h : 0 < maxS - minS) :
    normScore minS (maxS - minS) maxS = 100 := by
  unfold normScore jsRound
  rw [div_self (ne_of_gt h)]
  have hf : ⌊(1 : ℚ) * 100 * 100 + 1 / 2⌋ = (10000 : ℤ) := by
    apply Int.floor_eq_iff.mpr
    constructor <;> norm_num
  rw [hf]
  norm_num

/-- The minimal raw score renormalises to exactly 0. -/
theorem normScore_at_min (minS range : ℚ) (h : 0 < range) :
    normScore minS range minS = 0 := by
  unfold normScore jsRound
  rw [sub_self, zero_div, zero_mul, zero_mul]
  have hf : ⌊(0 : ℚ) + 1 / 2⌋ = (0 : ℤ) := by
    apply Int.floor_eq_iff.mpr
    refine ⟨by norm_num, by norm_num⟩
  rw [hf]
  norm_num

/-- The renormalisation map is monotone when the range is positive. -/
theorem normScore_mono (minS range : ℚ) (h : 0 < range) (s t : ℚ)
    (hst : s ≤ t) : normScore minS range s ≤ normScore minS range t := by
  unfold normScore
  refine min_le_min (le_refl _) (max_le_max (le_refl _) ?_)
  have h0 : (s - minS) / range ≤ (t - minS) / range :=
    (div_le_div_right h).mpr (by linarith)
  have h1 : (s - minS) / range * 100 * 100 ≤ (t - minS) / range * 100 * 100 := by
    have h0a := mul_le_mul_of_nonneg_right h0 (by norm_num : (0:ℚ) ≤ 100)
    exact mul_le_mul_of_nonneg_right h0a (by norm_num)
  have h2 : jsRound ((s - minS) / range * 100 * 100) ≤
      jsRound ((t - minS) / range * 100 * 100) := by
    unfold jsRound
    exact Int.floor_le_floor (by linarith)
  have h3 : ((jsRound ((s - minS) / range * 100 * 100) : ℚ)) ≤
      ((jsRound ((t - minS) / range * 100 * 100) : ℚ)) := by exact_mod_cast h2
  exact div_le_div_of_nonneg_right h3 (by norm_num)

/-- Every renormalised score is an integer number of hundredths. -/
theorem normScore_decimal (minS range s : ℚ) :
    ∃ n : ℤ, normScore minS range s = (n : ℚ) / 100 := by
  unfold normScore
  set m := jsRound ((s - minS) / range * 100 * 100) with hm
  have h100 : (0 : ℚ) < 100 := by norm_num
  rcases le_or_lt (m : ℚ) 0 with h | h
  · refine ⟨0, ?_⟩
    have hd : (m : ℚ) / 100 ≤ 0 := by
      have := (div_le_div_iff_of_pos_right h100).mpr h
      simpa using this
    rw [max_eq_left hd, min_eq_right (le_of_lt h100)]
    norm_num
  · have hmax : max 0 ((m : ℚ) / 100) = (m : ℚ) / 100 :=
      max_eq_right (le_of_lt (div_pos h h100))
    rcases le_or_lt ((m : ℚ) / 100) 100 with h2 | h2
    · exact ⟨m, by rw [hmax, min_eq_right h2]⟩
    · refine ⟨10000, ?_⟩
      rw [hmax, min_eq_left (le_of_lt h2)]
      norm_num

/-- The positive-range branch of the normalisation step. -/
theorem normalizeTop_eq_pos (tops : List ScoredResult) (minS maxS : ℚ)
    (hne : tops ≠ [])
    (hmin : minS = listMinQ (tops.map (fun r => r.score)))
    (hmax : maxS = listMaxQ (tops.map (fun r => r.score)))
    (h : 0 < maxS - minS) :
    normalizeTop tops =
      tops.map (fun r => { r with score := normScore minS (maxS - minS) r.score }) := by
  subst hmin hmax
  unfold normalizeTop
  split
  next hemp =>
    cases tops with
    | nil => exact absurd rfl hne
    | cons t ts => simp at hemp
  next hemp =>
    dsimp only
    rw [if_pos h]

/-- The degenerate branch of the normalisation step: zero range sets every
score to 100. -/
theorem normalizeTop_eq_const (tops : List ScoredResult) (hne : tops ≠ [])
    (h : ¬ 0 < listMaxQ (tops.map (fun r => r.score)) -
      listMinQ (tops.map (fun r => r.score))) :
    normalizeTop tops = tops.map (fun r => { r with score := 100 }) := by
  unfold normalizeTop
  split
  next hemp =>
    cases tops with
    | nil => exact absurd rfl hne
    | cons t ts => simp at hemp
  next hemp =>
    dsimp only
    rw [if_neg h]

/-- C4: for a nonempty top-20 slice, when the raw scores are not all
equal the renormalised scores have maximum exactly 100 and minimum
exactly 0, and every renormalised score lies in [0, 100] and is a whole
number of hundredths (two decimal places); when the raw scores are all
equal, every renormalised score is exactly 100. -/
theorem renormalization_spec (tops : List ScoredResult) (hne : tops ≠ []) :
    (¬ (∀ x ∈ tops.map (fun r => r.score), ∀ y ∈ tops.map (fun r => r.score),
        x = y) →
      listMaxQ ((normalizeTop tops).map (fun r => r.score)) = 100 ∧
      listMinQ ((normalizeTop tops).map (fun r => r.score)) = 0 ∧
      ∀ s ∈ (normalizeTop tops).map (fun r => r.score),
        0 ≤ s ∧ s ≤ 100 ∧ ∃ n : ℤ, s = (n : ℚ) / 100) ∧
    ((∀ x ∈ tops.map (fun r => r.score), ∀ y ∈ tops.map (fun r => r.score),
        x = y) →
      ∀ s ∈ (normalizeTop tops).map (fun r => r.score), s = 100) := by
  have hsne : tops.map (fun r => r.score) ≠ [] := by
    intro hc
    exact hne (List.map_eq_nil.mp hc)
  constructor
  · intro hnc
    set minS := listMinQ (tops.map (fun r => r.score)) with hminS
    set maxS := listMaxQ (tops.map (fun r => r.score)) with hmaxS
    have hrange : 0 < maxS - minS := range_pos_of_not_const _ hsne hnc
    rw [normalizeTop_eq_pos tops minS maxS hne hminS hmaxS hrange]
    rw [List.map_map]
    have hout : ((fun r : ScoredResult => r.score) ∘ (fun r : ScoredResult =>
        { r with score := normScore minS (maxS - minS) r.score })) =
        fun r : ScoredResult => normScore minS (maxS - minS) r.score := rfl
    rw [hout, show (tops.map
        (fun r : ScoredResult => normScore minS (maxS - minS) r.score)) =
        (tops.map (fun r => r.score)).map (normScore minS (maxS - minS)) from
      (List.map_map (normScore minS (maxS - minS))
        (fun r : ScoredResult => r.score) tops).symm]
    refine ⟨?_, ?_, ?_⟩
    · apply listMaxQ_eq_of
      · refine List.mem_map.mpr ⟨maxS, ?_, normScore_at_max _ _ hrange⟩
        rw [hmaxS]
        exact listMaxQ_mem _ hsne
      · intro x hx
        obtain ⟨t, _, rfl⟩ := List.mem_map.mp hx
        exact normScore_le_100 _ _ _
    · apply listMinQ_eq_of
      · refine List.mem_map.mpr ⟨minS, ?_, normScore_at_min _ _ hrange⟩
        rw [hminS]
        exact listMinQ_mem _ hsne
      · intro x hx
        obtain ⟨t, _, rfl⟩ := List.mem_map.mp hx
        exact normScore_nonneg _ _ _
    · intro sc hsc
      obtain ⟨t, _, rfl⟩ := List.mem_map.mp hsc
      exact ⟨normScore_nonneg _ _ _, normScore_le_100 _ _ _,
        normScore_decimal _ _ _⟩
  · intro hc
    have hrange := range_zero_of_const _ hsne hc
    rw [normalizeTop_eq_const tops hne (by rw [hrange]; norm_num)]
    intro sc hsc
    rw [List.map_map] at hsc
    obtain ⟨t, _, rfl⟩ := List.mem_map.mp hsc
    rfl

/-- Witness for C4 at a two-element slice with distinct raw scores. -/
theorem renormalization_spec_witness :
    (([⟨cexA, 1, false, none⟩, ⟨cexA, 0, false, none⟩] : List ScoredResult) ≠ []) ∧
    ¬ (∀ x ∈ ([⟨cexA, 1, false, none⟩, ⟨cexA, 0, false, none⟩] :
          List ScoredResult).map (fun r => r.score),
        ∀ y ∈ ([⟨cexA, 1, false, none⟩, ⟨cexA, 0, false, none⟩] :
          List ScoredResult).map (fun r => r.score), x = y) ∧
    (listMaxQ ((normalizeTop ([⟨cexA, 1, false, none⟩, ⟨cexA, 0, false, none⟩] :
        List ScoredResult)).map (fun r => r.score)) = 100 ∧
     listMinQ ((normalizeTop ([⟨cexA, 1, false, none⟩, ⟨cexA, 0, false, none⟩] :
        List ScoredResult)).map (fun r => r.score)) = 0 ∧
     ∀ s ∈ (normalizeTop ([⟨cexA, 1, false, none⟩, ⟨cexA, 0, false, none⟩] :
        List ScoredResult)).map (fun r => r.score),
       0 ≤ s ∧ s ≤ 100 ∧ ∃ n : ℤ, s = (n : ℚ) / 100) :=
  ⟨by decide, by decide,
   (renormalization_spec [⟨cexA, 1, false, none⟩, ⟨cexA, 0, false, none⟩]
      (by decide)).1 (by decide)⟩

/-- Membership in a stable descending insertion. -/
theorem mem_insertDesc (x a : ScoredResult) (l : List ScoredResult) :
    a ∈ insertDesc x l ↔ a = x ∨ a ∈ l := by
  induction l with
  | nil => simp [insertDesc]
  | cons y ys ih =>
    unfold insertDesc
    split
    next h =>
      simp only [List.mem_cons, ih]
      tauto
    next h =>
      simp [List.mem_cons]

/-- Sorting by descending score preserves membership. -/
theorem mem_sortByScoreDesc (l : List ScoredResult) (a : ScoredResult) :
    a ∈ sortByScoreDesc l ↔ a ∈ l := by
  unfold sortByScoreDesc
  induction l with
  | nil => simp
  | cons x xs ih =>
    rw [List.foldr_cons, mem_insertDesc, List.mem_cons, ih]

/-- The head of a stable descending insertion is the new element or the
old head. -/
theorem insertDesc_head? (x : ScoredResult) (l : List ScoredResult) :
    (insertDesc x l).head? = some x ∨ (insertDesc x l).head? = l.head? := by
  cases l with
  | nil => exact Or.inl rfl
  | cons y ys =>
    unfold insertDesc
    split
    next h => exact Or.inr rfl
    next h => exact Or.inl rfl

/-- Stable descending insertion preserves descending sortedness. -/
theorem chain'_insertDesc (x : ScoredResult) (l : List ScoredResult)
    (h : List.Chain' (fun a b : ScoredResult => b.score ≤ a.score) l) :
    List.Chain' (fun a b : ScoredResult => b.score ≤ a.score) (insertDesc x l) := by
  induction l with
  | nil => simp [insertDesc]
  | cons y ys ih =>
    unfold insertDesc
    split
    next hxy =>
      obtain ⟨hy, hys⟩ := List.chain'_cons'.mp h
      refine List.chain'_cons'.mpr ⟨?_, ih hys⟩
      intro z hz
      rcases insertDesc_head? x ys with h1 | h1
      · rw [h1] at hz
        simp only [Option.mem_def, Option.some.injEq] at hz
        subst hz
        exact le_of_lt hxy
      · rw [h1] at hz
        exact hy z hz
    next hxy =>
      exact List.chain'_cons.mpr ⟨le_of_not_lt hxy, h⟩

/-- The stable sort produces a list sorted by descending score. -/
theorem chain'_sortByScoreDesc (l : List ScoredResult) :
    List.Chain' (fun a b : ScoredResult => b.score ≤ a.score)
      (sortByScoreDesc l) := by
  unfold sortByScoreDesc
  induction l with
  | nil => simp
  | cons x xs ih =>
    rw [List.foldr_cons]
    exact chain'_insertDesc _ _ ih

/-- The normalisation step preserves length. -/
theorem length_normalizeTop (tops : List ScoredResult) :
    (normalizeTop tops).length = tops.length := by
  unfold normalizeTop
  split
  · rfl
  · dsimp only
    split <;> simp

/-- The normalisation step preserves descending sortedness (the per-score
map is monotone in the positive-range branch and constant otherwise). -/
theorem chain'_normalizeTop (tops : List ScoredResult)
    (h : List.Chain' (fun a b : ScoredResult => b.score ≤ a.score) tops) :
    List.Chain' (fun a b : ScoredResult => b.score ≤ a.score)
      (normalizeTop tops) := by
  rcases eq_or_ne tops [] with rfl | hne
  · simp [normalizeTop]
  set minS := listMinQ (tops.map (fun r => r.score)) with hmin
  set maxS := listMaxQ (tops.map (fun r => r.score)) with hmax
  by_cases hr : 0 < maxS - minS
  · rw [normalizeTop_eq_pos tops minS maxS hne hmin hmax hr]
    refine List.chain'_map_of_chain'
      (fun r : ScoredResult => { r with score := normScore minS (maxS - minS) r.score })
      (fun a b hab => ?_) h
    exact normScore_mono _ _ hr _ _ hab
  · rw [normalizeTop_eq_const tops hne hr]
    refine List.chain'_map_of_chain'
      (fun r : ScoredResult => { r with score := (100 : ℚ) })
      (fun a b _ => ?_) h
    show (100 : ℚ) ≤ 100
    exact le_refl _

/-- Taking an initial segment preserves descending sortedness. -/
theorem chain'_take (l : List ScoredResult) (n : Nat)
    (h : List.Chain' (fun a b : ScoredResult => b.score ≤ a.score) l) :
    List.Chain' (fun a b : ScoredResult => b.score ≤ a.score) (l.take n) :=
  List.Chain'.prefix h ( List.take_prefix n l)

/-- The ranking tail always returns at most 20 results, sorted by
descending score. -/
theorem rankResults_capped_sorted (calcDist : Coordinates → Coordinates → ℚ)
    (attrs : SpecificAttributes) (results : List ScoredResult) :
    (rankResults calcDist attrs results).length ≤ 20 ∧
    List.Chain' (fun a b : ScoredResult => b.score ≤ a.score)
      (rankResults calcDist attrs results) := by
  unfold rankResults
  dsimp only
  constructor
  · rw [length_normalizeTop, List.length_take]
    exact min_le_left _ _
  · exact chain'_normalizeTop _ (chain'_take _ _ (chain'_sortByScoreDesc _))

/-- The post-provider phase of the handler is the ranking tail, hence
capped and sorted. -/
theorem searchTail_capped_sorted (calcDist : Coordinates → Coordinates → ℚ)
    (q : Str) (store : List Property) (hits : List VecHit) :
    (searchTail calcDist q store hits).length ≤ 20 ∧
    List.Chain' (fun a b : ScoredResult => b.score ≤ a.score)
      (searchTail calcDist q store hits) :=
  rankResults_capped_sorted calcDist _ _

/-- C6: every 200 response of POST /property/search (vector path or
fallback path) carries at most 20 scored results, ordered by descending
score. -/
theorem search_results_capped_sorted (calcDist : Coordinates → Coordinates → ℚ)
    (ok pk : Option Str) (body : Option Str) (er : Except JsError Unit)
    (vr : Except JsError (List VecHit)) (store : List Property)
    (rs : List ScoredResult) (effs : List Eff)
    (h : searchHandler calcDist ok pk body er vr store = (.results rs, effs)) :
    rs.length ≤ 20 ∧
    List.Chain' (fun a b : ScoredResult => b.score ≤ a.score) rs := by
  unfold searchHandler at h
  split at h
  next => simp at h
  next =>
    split at h
    next => simp at h
    next =>
      split at h
      next => simp at h
      next q =>
        split at h
        next => simp at h
        next =>
          split at h
          next e =>
            simp only [Prod.mk.injEq, Response.results.injEq] at h
            obtain ⟨h1, -⟩ := h
            subst h1
            exact searchTail_capped_sorted calcDist q store []
          next =>
            split at h
            next e =>
              split at h
              next =>
                simp only [Prod.mk.injEq, Response.results.injEq] at h
                obtain ⟨h1, -⟩ := h
                subst h1
                exact searchTail_capped_sorted calcDist q store []
              next => simp at h
            next hits =>
              simp only [Prod.mk.injEq, Response.results.injEq] at h
              obtain ⟨h1, -⟩ := h
              subst h1
              exact searchTail_capped_sorted calcDist q store hits

/-- Witness for C6: a concrete request whose response is a result list. -/
theorem search_results_capped_sorted_witness :
    searchHandler (fun _ _ => 0) (some (str "sk")) (some (str "pk"))
        (some (str "x")) (.error ⟨none, []⟩) (.ok []) [] =
      (.results [], [.validate, .embedCall]) ∧
    (([] : List ScoredResult).length ≤ 20 ∧
      List.Chain' (fun a b : ScoredResult => b.score ≤ a.score)
        ([] : List ScoredResult)) :=
  ⟨by decide,
   search_results_capped_sorted (fun _ _ => 0) (some (str "sk"))
     (some (str "pk")) (some (str "x")) (.error ⟨none, []⟩) (.ok []) [] []
     [.validate, .embedCall] (by decide)⟩

/-- Characterisation of one step of the fallback matcher: a listing is
dropped exactly when no field contains the query and no query term is
contained in any field; when it is kept, the listing itself is
unchanged. -/
theorem fallbackScore_retention (nq : Str) (r : ScoredResult) :
    (fallbackScore nq r = none ↔
      (fieldSubstrMatch r.property nq = false ∧
        ∀ t ∈ splitWs nq, fieldSubstrMatch r.property t = false)) ∧
    (∀ r', fallbackScore nq r = some r' → r'.property = r.property) := by
  unfold fallbackScore
  dsimp only
  split
  next hcond =>
    refine ⟨?_, ?_⟩
    · simp only [reduceCtorEq, false_iff]
      rintro ⟨hf, ht⟩
      have hfilter : (splitWs nq).filter (fun t => fieldSubstrMatch r.property t) = [] :=
        List.filter_eq_nil.mpr (fun a ha => by simp [ht a ha])
      rw [hfilter] at hcond
      have hft : fieldSubstrMatch r.property nq = true := by
        unfold fieldSubstrMatch
        simpa using hcond
      rw [hft] at hf
      simp at hf
    · intro r' hr'
      simp only [Option.some.injEq] at hr'
      rw [← hr']
  next hcond =>
    rw [Bool.not_eq_true] at hcond
    simp only [Bool.or_eq_false_iff] at hcond
    obtain ⟨⟨⟨⟨⟨⟨⟨hD, h1⟩, h2⟩, h3⟩, h4⟩, h5⟩, h6⟩, h7⟩ := hcond
    have hfil : (splitWs nq).filter (fun t => fieldSubstrMatch r.property t) = [] := by
      rw [← List.length_eq_zero]
      simpa using hD
    refine ⟨?_, ?_⟩
    · simp only [true_iff]
      constructor
      · unfold fieldSubstrMatch
        rw [h1, h2, h3, h4, h5, h6, h7]
        rfl
      · intro t ht
        have := List.filter_eq_nil.mp hfil t ht
        simpa using this
    · intro r' hr'
      cases hr'

/-- C7: in the fallback text matcher (nonempty trimmed query), a listing
none of whose seven fields contains the full lower-cased query and which
shares no whitespace-delimited query term with any field is excluded
from the fallback results; a listing with at least one field match or at
least one term match is retained. -/
theorem fallback_matcher_retention (q : Str) (props : List Property)
    (p : Property) (hq : (trimStr q).isEmpty = false) :
    ((fieldSubstrMatch p (lowerStr q) = false ∧
        ∀ t ∈ splitWs (lowerStr q), fieldSubstrMatch p t = false) →
      ∀ r ∈ fallbackResults q props, r.property ≠ p) ∧
    (p ∈ props →
      (fieldSubstrMatch p (lowerStr q) = true ∨
        ∃ t ∈ splitWs (lowerStr q), fieldSubstrMatch p t = true) →
      ∃ r ∈ fallbackResults q props, r.property = p) := by
  have hfb : fallbackResults q props =
      sortByScoreDesc ((props.map (fun p => { property := p, score := 0.5 })).filterMap
        (fallbackScore (lowerStr q))) := by
    unfold fallbackResults
    rw [hq]
    rfl
  constructor
  · rintro ⟨hf, ht⟩ r hr hrp
    rw [hfb, mem_sortByScoreDesc] at hr
    obtain ⟨b, hb, hfbs⟩ := List.mem_filterMap.mp hr
    have hbp : r.property = b.property := (fallbackScore_retention _ _).2 r hfbs
    have hbpp : b.property = p := by rw [← hbp, hrp]
    have hnone : fallbackScore (lowerStr q) b = none := by
      refine (fallbackScore_retention _ _).1.mpr ?_
      rw [hbpp]
      exact ⟨hf, ht⟩
    rw [hnone] at hfbs
    cases hfbs
  · intro hp hmatch
    have hb : ({ property := p, score := 0.5 } : ScoredResult) ∈
        props.map (fun p => { property := p, score := 0.5 }) :=
      List.mem_map_of_mem _ hp
    have hns : fallbackScore (lowerStr q) { property := p, score := 0.5 } ≠ none := by
      rw [Ne, (fallbackScore_retention _ _).1]
      rintro ⟨hf, ht⟩
      rcases hmatch with hm | ⟨t, htm, hmt⟩
      · rw [hf] at hm
        cases hm
      · rw [ht t htm] at hmt
        cases hmt
    obtain ⟨r', hr'⟩ := Option.ne_none_iff_exists'.mp hns
    refine ⟨r', ?_, (fallbackScore_retention _ _).2 r' hr'⟩
    rw [hfb, mem_sortByScoreDesc]
    exact List.mem_filterMap.mpr ⟨_, hb, hr'⟩

/-- Witness for C7 at a concrete query and store: "house" retains the
matching listing and excludes a non-matching one. -/
theorem fallback_matcher_retention_witness :
    (trimStr (str "house")).isEmpty = false ∧
    (cexA ∈ [cexA] ∧ fieldSubstrMatch cexA (lowerStr (str "house")) = true) ∧
    (∃ r ∈ fallbackResults (str "house") [cexA], r.property = cexA) :=
  ⟨by decide, ⟨by decide, by decide⟩,
   (fallback_matcher_retention (str "house") [cexA] cexA (by decide)).2
     (by decide) (Or.inl (by decide))⟩

/-- C1 (code bug): a concrete POST /property/search response in which the
boosted results contain one exact match (cexB) and one non-exact match
(cexA), yet the non-exact match is returned first: the partition of
exact matches is destroyed by the subsequent global sort by score. -/
theorem exact_match_ordering_bug :
    searchHandler (fun _ _ => 0) (some (str "sk")) (some (str "pk"))
        (some (str "3 bed")) (.ok ()) (.ok [⟨1, 2⟩, ⟨2, 0⟩]) [cexA, cexB] =
      (.results [⟨cexA, 100, false, none⟩, ⟨cexB, 0, true, none⟩],
       [.validate, .embedCall, .vectorCall]) := by
  have h0 : searchHandler (fun _ _ => 0) (some (str "sk")) (some (str "pk"))
      (some (str "3 bed")) (.ok ()) (.ok [⟨1, 2⟩, ⟨2, 0⟩]) [cexA, cexB] =
      (.results (searchTail (fun _ _ => 0) (str "3 bed") [cexA, cexB]
        [⟨1, 2⟩, ⟨2, 0⟩]), [.validate, .embedCall, .vectorCall]) := rfl
  rw [h0]
  have e1 : extractSpecificAttributes (str "3 bed") =
      { bedrooms := some 3 } := by decide
  have e2 : (if (List.isEmpty [(⟨1, 2⟩ : VecHit), ⟨2, 0⟩]) = true then
      fallbackResults (str "3 bed") [cexA, cexB]
    else vectorJoin [⟨1, 2⟩, ⟨2, 0⟩]
      (getPropertiesByIds (List.map (fun h => h.id)
        [(⟨1, 2⟩ : VecHit), ⟨2, 0⟩]) [cexA, cexB])) =
      [⟨cexA, 2, false, none⟩, ⟨cexB, 0, false, none⟩] := by decide
  have h1 : searchTail (fun _ _ => 0) (str "3 bed") [cexA, cexB]
      [⟨1, 2⟩, ⟨2, 0⟩] =
      rankResults (fun _ _ => 0) { bedrooms := some 3 }
        [⟨cexA, 2, false, none⟩, ⟨cexB, 0, false, none⟩] := by
    unfold searchTail
    dsimp only
    rw [e1, e2]
  rw [h1]
  unfold rankResults
  dsimp only
  rw [if_pos (show ({ bedrooms := some 3 } :
    SpecificAttributes).isPresent = true by decide)]
  have hbA : boostResult (fun _ _ => 0) { bedrooms := some 3 }
      ⟨cexA, 2, false, none⟩ = ⟨cexA, 2, false, none⟩ := by
    unfold boostResult
    norm_num [cexA]
  have hbB : boostResult (fun _ _ => 0) { bedrooms := some 3 }
      ⟨cexB, 0, false, none⟩ = ⟨cexB, 0.8, true, none⟩ := by
    unfold boostResult
    norm_num [cexB]
  rw [List.map_cons, List.map_cons, List.map_nil, hbA, hbB]
  have hef : exactFirst [⟨cexA, 2, false, none⟩, ⟨cexB, 0.8, true, none⟩] =
      [⟨cexB, 0.8, true, none⟩, ⟨cexA, 2, false, none⟩] := rfl
  rw [hef]
  have hs1 : sortByScoreDesc
      [⟨cexB, 0.8, true, none⟩, ⟨cexA, 2, false, none⟩] =
      if (0.8 : ℚ) < 2 then [⟨cexA, 2, false, none⟩, ⟨cexB, 0.8, true, none⟩]
      else [⟨cexB, 0.8, true, none⟩, ⟨cexA, 2, false, none⟩] := rfl
  rw [hs1, if_pos (by norm_num : (0.8 : ℚ) < 2)]
  rw [show ([⟨cexA, 2, false, none⟩, ⟨cexB, 0.8, true, none⟩] :
      List ScoredResult).take 20 =
      [⟨cexA, 2, false, none⟩, ⟨cexB, 0.8, true, none⟩] from rfl]
  have hmin : (0.8 : ℚ) = listMinQ
      (([⟨cexA, 2, false, none⟩, ⟨cexB, 0.8, true, none⟩] :
        List ScoredResult).map (fun r => r.score)) := by
    show (0.8 : ℚ) = min 2 0.8
    rw [min_eq_right (by norm_num : (0.8 : ℚ) ≤ 2)]
  have hmax : (2 : ℚ) = listMaxQ
      (([⟨cexA, 2, false, none⟩, ⟨cexB, 0.8, true, none⟩] :
        List ScoredResult).map (fun r => r.score)) := by
    show (2 : ℚ) = max 2 0.8
    rw [max_eq_left (by norm_num : (0.8 : ℚ) ≤ 2)]
  rw [normalizeTop_eq_pos _ 0.8 2 (by decide) hmin hmax (by norm_num)]
  simp only [List.map_cons, List.map_nil]
  rw [show normScore 0.8 (2 - 0.8) 2 = 100 from
      normScore_at_max 0.8 2 (by norm_num),
    show normScore 0.8 (2 - 0.8) 0.8 = 0 from
      normScore_at_min 0.8 (2 - 0.8) (by norm_num)]
